import Mathlib

/-
Verification of the trade-signal generation and order-simulation core of the
auto-trader repository, shallowly embedded in Lean 4.

The order-lifecycle state machine is translated from
src/auto_trader/modeling/order.py.  Python floats are embedded as exact
rationals, datetime objects as a record of the calendar fields the code
reads, and the pandas DataFrame returned by export_results as a list of row
records.  The failing assertion inside Order.gain is embedded as Option.
-/

set_option allowUnsafeReducibility true in
attribute [semireducible] Rat.add Rat.sub Rat.mul Rat.inv

namespace AutoTrader

/-- The calendar fields of a datetime value that order.py reads
(dt.hour, dt.month, dt.day), plus year and minute so that distinct
timestamps are representable. -/
structure DateTime where
  year : Nat
  month : Nat
  day : Nat
  hour : Nat
  minute : Nat
deriving DecidableEq, Repr

/-- PositionType enum from order.py. -/
inductive PositionType where
  | long
  | short
deriving DecidableEq, Repr

/-- The string payload of the PositionType enum members. -/
def PositionType.value : PositionType → String
  | .long => "long"
  | .short => "short"

/-- Order from order.py: entry fields set at construction, exit fields
initially None. -/
structure Order where
  position_type : PositionType
  entry_time : DateTime
  entry_rate : Rat
  exit_time : Option DateTime
  exit_rate : Option Rat
deriving DecidableEq, Repr

/-- Order.exit: record the exit timestamp and rate. -/
def Order.exit (o : Order) (t : DateTime) (r : Rat) : Order :=
  { o with exit_time := some t, exit_rate := some r }

/-- Order.gain: asserts exit_rate is not None (embedded as Option.none on
violation), then returns the rate difference signed by the position type. -/
def Order.gain (o : Order) : Option Rat :=
  match o.exit_rate with
  | none => none
  | some er =>
    let rate_diff := er - o.entry_rate
    match o.position_type with
    | .long => some rate_diff
    | .short => some (-rate_diff)

/-- OrderSimulator state from order.py. -/
structure OrderSimulator where
  start_hour : Nat
  end_hour : Nat
  thresh_losscut : Rat
  order_history : List Order
  open_position : Option Order
deriving DecidableEq, Repr

/-- OrderSimulator.__init__: empty history, no open position. -/
def OrderSimulator.init (start_hour end_hour : Nat) (thresh_losscut : Rat) :
    OrderSimulator :=
  ⟨start_hour, end_hour, thresh_losscut, [], none⟩

/-- The is_open computation at the top of OrderSimulator.step:
within configured hours and not December 25. -/
def OrderSimulator.isOpen (sim : OrderSimulator) (dt : DateTime) : Bool :=
  (decide (sim.start_hour ≤ dt.hour) && decide (dt.hour < sim.end_hour)) &&
    !(decide (dt.month = 12) && decide (dt.day = 25))

/-- The closing condition of the exit block of OrderSimulator.step, for a
currently open position pos. -/
def closeCond (thresh_losscut : Rat) (pos : Order) (is_open : Bool)
    (rate : Rat) (long_exit short_exit : Bool) : Bool :=
  (decide (pos.position_type = PositionType.long) &&
    (!is_open || long_exit || decide (thresh_losscut ≤ pos.entry_rate - rate))) ||
  (decide (pos.position_type = PositionType.short) &&
    (!is_open || short_exit || decide (thresh_losscut ≤ rate - pos.entry_rate)))

/-- The exit block of OrderSimulator.step: if a position is open and the
closing condition holds, record its exit, append it to order_history and
clear open_position. -/
def OrderSimulator.exitPhase (sim : OrderSimulator) (dt : DateTime) (rate : Rat)
    (is_open long_exit short_exit : Bool) : OrderSimulator :=
  match sim.open_position with
  | some pos =>
    if closeCond sim.thresh_losscut pos is_open rate long_exit short_exit then
      { sim with
        order_history := sim.order_history ++ [pos.exit dt rate],
        open_position := none }
    else sim
  | none => sim

/-- The open_position value produced by the entry block of
OrderSimulator.step (the entry block assigns only open_position). -/
def entryPos (cur : Option Order) (is_open long_entry short_entry : Bool)
    (dt : DateTime) (rate : Rat) : Option Order :=
  if is_open && cur.isNone then
    if long_entry then some (Order.mk .long dt rate none none)
    else if short_entry then some (Order.mk .short dt rate none none)
    else cur
  else cur

/-- The entry block of OrderSimulator.step. -/
def OrderSimulator.entryPhase (sim : OrderSimulator) (dt : DateTime) (rate : Rat)
    (is_open long_entry short_entry : Bool) : OrderSimulator :=
  { sim with
    open_position := entryPos sim.open_position is_open long_entry short_entry dt rate }

/-- OrderSimulator.step(dt, rate, long_entry, long_exit, short_entry,
short_exit): compute is_open, run the exit block, then the entry block. -/
def OrderSimulator.step (sim : OrderSimulator) (dt : DateTime) (rate : Rat)
    (long_entry long_exit short_entry short_exit : Bool) : OrderSimulator :=
  let is_open := sim.isOpen dt
  (sim.exitPhase dt rate is_open long_exit short_exit).entryPhase dt rate
    is_open long_entry short_entry

/-- One row of the DataFrame built by OrderSimulator.export_results. -/
structure ResultRow where
  position_type : String
  entry_time : DateTime
  exit_time : Option DateTime
  entry_rate : Rat
  exit_rate : Option Rat
  gain : Rat
deriving DecidableEq, Repr

/-- The row comprehension body of export_results; evaluating order.gain on a
still-open order fails, embedded as none. -/
def Order.toRow (o : Order) : Option ResultRow :=
  match o.gain with
  | some g =>
    some ⟨o.position_type.value, o.entry_time, o.exit_time, o.entry_rate, o.exit_rate, g⟩
  | none => none

/-- Row-by-row construction of the export table; fails (none) as soon as one
order's gain is unreadable, as the Python generator would. -/
def rowsOf : List Order → Option (List ResultRow)
  | [] => some []
  | o :: rest =>
    match o.toRow, rowsOf rest with
    | some r, some rs => some (r :: rs)
    | _, _ => none

/-- OrderSimulator.export_results: one row per order in order_history, in
history order. -/
def OrderSimulator.export_results (sim : OrderSimulator) : Option (List ResultRow) :=
  rowsOf sim.order_history

/-- One input tuple of OrderSimulator.step, in the positional order of the
Python signature. -/
structure StepInput where
  dt : DateTime
  rate : Rat
  long_entry : Bool
  long_exit : Bool
  short_entry : Bool
  short_exit : Bool
deriving DecidableEq, Repr

/-- Feeding a list of inputs through OrderSimulator.step one at a time. -/
def OrderSimulator.run (sim : OrderSimulator) : List StepInput → OrderSimulator
  | [] => sim
  | inp :: rest =>
    (sim.step inp.dt inp.rate inp.long_entry inp.long_exit inp.short_entry
      inp.short_exit).run rest

-- Sanity checks of the embedding against the behavior of order.py.

example :
    ((OrderSimulator.init 0 24 5).step ⟨2022, 1, 3, 10, 0⟩ 100 true false false false).open_position =
      some ⟨.long, ⟨2022, 1, 3, 10, 0⟩, 100, none, none⟩ := by decide

example :
    (((OrderSimulator.init 0 24 5).step ⟨2022, 1, 3, 10, 0⟩ 100 true false false false).step
        ⟨2022, 1, 3, 10, 1⟩ 103 false true false false).order_history =
      [⟨.long, ⟨2022, 1, 3, 10, 0⟩, 100, some ⟨2022, 1, 3, 10, 1⟩, some 103⟩] := by decide

example :
    ((OrderSimulator.init 2 22 5).isOpen ⟨2022, 12, 25, 10, 0⟩) = false := by decide

example :
    ((OrderSimulator.init 2 22 5).isOpen ⟨2022, 12, 24, 1, 59⟩) = false := by decide

example :
    (Order.mk .short ⟨2022, 1, 2, 10, 0⟩ (1001/10) (some ⟨2022, 1, 2, 10, 5⟩)
      (some (1005/10))).gain = some (-(2/5)) := by decide

example :
    ((OrderSimulator.init 2 22 5).run
      [⟨⟨2022, 1, 3, 3, 0⟩, 539, true, false, false, false⟩,
       ⟨⟨2022, 1, 3, 3, 5⟩, 534, false, false, false, false⟩]).order_history =
      [⟨.long, ⟨2022, 1, 3, 3, 0⟩, 539, some ⟨2022, 1, 3, 3, 5⟩, some 534⟩] := by decide

/-! ## Extremum detector (zigzag with hysteresis) -/

/-- State of the zigzag scan: current direction, current candidate extremum
(index and value), and committed extrema so far in commit order. -/
structure ZigzagState where
  rising : Bool
  candIdx : Nat
  candVal : Rat
  commits : List Nat
deriving DecidableEq, Repr

/-- Modelled from the spec: one step of the hysteresis zigzag scan of the
Extremum Detector (utils.compute_critical_idxs, whose implementation file is
absent; only its test is in the repository).  Rising: a larger value becomes
the new candidate maximum; a drop of at least the threshold from the
candidate commits the candidate and flips direction.  Falling is symmetric.
Ties neither update the candidate nor commit. -/
def zigzagStep (thresh : Rat) (st : ZigzagState) (i : Nat) (v : Rat) : ZigzagState :=
  if st.rising then
    if st.candVal < v then { st with candIdx := i, candVal := v }
    else if thresh ≤ st.candVal - v then
      ⟨false, i, v, st.commits ++ [st.candIdx]⟩
    else st
  else
    if v < st.candVal then { st with candIdx := i, candVal := v }
    else if thresh ≤ v - st.candVal then
      ⟨true, i, v, st.commits ++ [st.candIdx]⟩
    else st

/-- The zigzag scan over the remaining values, i being the index of the head
of the remaining list. -/
def zigzagGo (thresh : Rat) (st : ZigzagState) (i : Nat) : List Rat → ZigzagState
  | [] => st
  | v :: rest => zigzagGo thresh (zigzagStep thresh st i v) (i + 1) rest

/-- Modelled from the spec: utils.compute_critical_idxs (implementation file
absent from the repository).  The scan starts at index 0 in the rising state
with the first value as candidate, and the final candidate is committed
unconditionally at the end; the initial-direction and boundary-commit details
are pinned by test_compute_ctirical_idxs in modeling/test_utils.py, which
this model reproduces exactly (see the examples below). -/
def compute_critical_idxs (values : List Rat) (thresh_hold : Rat) : List Nat :=
  match values with
  | [] => []
  | v0 :: rest =>
    let fin := zigzagGo thresh_hold ⟨true, 0, v0, []⟩ 1 rest
    fin.commits ++ [fin.candIdx]

-- The two authoritative test vectors of test_compute_ctirical_idxs.

example :
    compute_critical_idxs [1, 2, 3, 0, 2, 1, 5, 3, 1] (3/2) = [2, 3, 6, 8] := by decide

example :
    compute_critical_idxs [3, 2, 1, 0, 1, 2, 1, 9/10, 4/5] (3/2) = [0, 3, 5] := by decide

/-! ## Signal generators (smadiff and future-delta variants) -/

/-- The four boolean signal channels, aligned to the price index. -/
structure SignalFrame where
  long_entry : List Bool
  short_entry : List Bool
  long_exit : List Bool
  short_exit : List Bool
deriving DecidableEq, Repr

/-- A price frame with high and low columns. -/
structure PriceFrame where
  high : List Rat
  low : List Rat
deriving DecidableEq, Repr

/-- Arithmetic mean of a list of rationals. -/
def listMean (l : List Rat) : Rat := l.sum / (l.length : Rat)

/-- Modelled from the spec: the windowed SMA difference of
utils.create_smadiff_labels (implementation file absent) at index i over
series s: leading mean of the next wa values minus trailing mean of the wb
values up to and including i.  Defined (some) exactly on the index range
wb ≤ i and i + wa < length, the range pinned by the worked example in
test_create_smadiff_labels; outside it the generator degrades to no signal. -/
def smadiffDiff (s : List Rat) (wb wa i : Nat) : Option Rat :=
  if wb ≤ i ∧ i + wa < s.length then
    some (listMean ((s.drop (i + 1)).take wa) - listMean ((s.drop (i + 1 - wb)).take wb))
  else none

/-- Modelled from the spec: utils.create_smadiff_labels (implementation file
absent).  A strongly positive SMA difference flags long_entry and a mildly
positive one short_exit; mirrored for the negative side; long signals read
the low column and short signals the high column; indices whose windows are
incomplete get false on every channel. -/
def create_smadiff_labels (df : PriceFrame) (wb wa : Nat) (te th : Rat) :
    SignalFrame where
  long_entry := (List.range df.low.length).map fun i =>
    match smadiffDiff df.low wb wa i with
    | some d => decide (te < d)
    | none => false
  short_entry := (List.range df.high.length).map fun i =>
    match smadiffDiff df.high wb wa i with
    | some d => decide (d < -te)
    | none => false
  long_exit := (List.range df.low.length).map fun i =>
    match smadiffDiff df.low wb wa i with
    | some d => decide (d < -th)
    | none => false
  short_exit := (List.range df.high.length).map fun i =>
    match smadiffDiff df.high wb wa i with
    | some d => decide (th < d)
    | none => false

/-- Modelled from the spec: the forward delta of utils.create_future_labels
(implementation file absent): price future_step bars ahead minus current
price, defined only while the forward bar exists. -/
def futureDiff (s : List Rat) (fs i : Nat) : Option Rat :=
  if i + fs < s.length then some (s.getD (i + fs) 0 - s.getD i 0) else none

/-- Modelled from the spec: utils.create_future_labels (implementation file
absent).  The signed forward delta beyond thresh_entry flags entry, beyond
thresh_hold with the opposite sign flags exit; the final future_step indices
get false on every channel. -/
def create_future_labels (df : PriceFrame) (fs : Nat) (te th : Rat) :
    SignalFrame where
  long_entry := (List.range df.low.length).map fun i =>
    match futureDiff df.low fs i with
    | some d => decide (te < d)
    | none => false
  short_entry := (List.range df.high.length).map fun i =>
    match futureDiff df.high fs i with
    | some d => decide (d < -te)
    | none => false
  long_exit := (List.range df.low.length).map fun i =>
    match futureDiff df.low fs i with
    | some d => decide (d < -th)
    | none => false
  short_exit := (List.range df.high.length).map fun i =>
    match futureDiff df.high fs i with
    | some d => decide (th < d)
    | none => false

/-- Modelled from the spec: the centered simple moving average used by
utils.create_smatrend_labels (implementation file absent) at label i — the
mean of window_size consecutive values centered on i, an even window
extending one bar further ahead, as a centered rolling mean does; defined
only where the full window fits (the worked example of
test_create_smatrend_labels shows nan at both ends for window 3). -/
def smaCenteredAt (s : List Rat) (w i : Nat) : Option Rat :=
  if w ≤ i + w / 2 + 1 ∧ i + w / 2 < s.length then
    some (listMean ((s.drop (i + w / 2 + 1 - w)).take w))
  else none

/-- Modelled from the spec: the (past, center, future) SMA triple the
sma-trend generator compares at index i — the centered SMA step_before bars
back, at i, and step_after bars ahead; none whenever any of the three windows
is incomplete. -/
def smatrendPair (s : List Rat) (w sb sa i : Nat) : Option (Rat × Rat × Rat) :=
  if sb ≤ i then
    match smaCenteredAt s w (i - sb), smaCenteredAt s w i, smaCenteredAt s w (i + sa) with
    | some p, some c, some f => some (p, c, f)
    | _, _, _ => none
  else none

/-- Modelled from the spec: the adjacent centered-SMA pair the sma-trend
generator compares for its exit channels; none at the edges where either
window is incomplete. -/
def smatrendExitPair (s : List Rat) (w i : Nat) : Option (Rat × Rat) :=
  match smaCenteredAt s w i, smaCenteredAt s w (i + 1) with
  | some c, some n => some (c, n)
  | _, _ => none

/-- Modelled from the spec: utils.create_smatrend_labels (implementation file
absent).  A rise of the centered SMA by at least thresh_entry both over the
step_before bars behind and over the step_after bars ahead flags long_entry
(mirrored for short_entry); every bar where the SMA is locally rising is
flagged short_exit and every bar where it is locally falling long_exit, which
yields the contiguous exit runs of the spec; long signals read the low column
and short signals the high column; indices whose windows are incomplete get
false on every channel.  The trigger arithmetic and the exit spans are pinned
by test_create_smatrend_labels, which this model reproduces exactly (see the
examples below). -/
def create_smatrend_labels (df : PriceFrame) (w sb sa : Nat) (te : Rat) :
    SignalFrame where
  long_entry := (List.range df.low.length).map fun i =>
    match smatrendPair df.low w sb sa i with
    | some (p, c, f) => decide (te ≤ c - p) && decide (te ≤ f - c)
    | none => false
  short_entry := (List.range df.high.length).map fun i =>
    match smatrendPair df.high w sb sa i with
    | some (p, c, f) => decide (te ≤ p - c) && decide (te ≤ c - f)
    | none => false
  long_exit := (List.range df.low.length).map fun i =>
    match smatrendExitPair df.low w i with
    | some (c, n) => decide (n < c)
    | none => false
  short_exit := (List.range df.high.length).map fun i =>
    match smatrendExitPair df.high w i with
    | some (c, n) => decide (c < n)
    | none => false

-- The worked example of test_create_smatrend_labels (high = values + 1,
-- low = values - 1, window_size 3, step_before 2, step_after 2,
-- thresh_entry 4), and its negated mirror.

example :
    create_smatrend_labels
      ⟨[1, 2, 3, 4, 8, 9, 7, 17, 15, 4, 11, 9, -5, 8, 6],
       [-1, 0, 1, 2, 6, 7, 5, 15, 13, 2, 9, 7, -7, 6, 4]⟩ 3 2 2 4 =
      ⟨[false, false, false, false, true, false, false, false, false, false,
        false, false, false, false, false],
       [false, false, false, false, false, false, false, false, false, false,
        true, false, false, false, false],
       [false, false, false, false, false, false, false, true, true, true,
        true, true, true, false, false],
       [false, true, true, true, true, true, true, false, false, false,
        false, false, false, false, false]⟩ := by decide

example :
    create_smatrend_labels
      ⟨[1, 0, -1, -2, -6, -7, -5, -15, -13, -2, -9, -7, 7, -6, -4],
       [-1, -2, -3, -4, -8, -9, -7, -17, -15, -4, -11, -9, 5, -8, -6]⟩ 3 2 2 4 =
      ⟨[false, false, false, false, false, false, false, false, false, false,
        true, false, false, false, false],
       [false, false, false, false, true, false, false, false, false, false,
        false, false, false, false, false],
       [false, true, true, true, true, true, true, false, false, false,
        false, false, false, false, false],
       [false, false, false, false, false, false, false, true, true, true,
        true, true, true, false, false]⟩ := by decide

-- The worked example of test_create_smadiff_labels (high = values + 1,
-- low = values - 1, window_size_before 2, window_size_after 3,
-- thresh_entry 1, thresh_hold 0), and its negated mirror.

example :
    create_smadiff_labels
      ⟨[2, 3, 4, 1, 3, 2, 0, 1, 2], [0, 1, 2, -1, 1, 0, -2, -1, 0]⟩ 2 3 1 0 =
      ⟨[false, false, false, false, false, false, false, false, false],
       [false, false, true, false, false, true, false, false, false],
       [false, false, true, true, true, true, false, false, false],
       [false, false, false, false, false, false, false, false, false]⟩ := by decide

example :
    create_smadiff_labels
      ⟨[0, -1, -2, 1, -1, 0, 2, 1, 0], [-2, -3, -4, -1, -3, -2, 0, -1, -2]⟩ 2 3 1 0 =
      ⟨[false, false, true, false, false, true, false, false, false],
       [false, false, false, false, false, false, false, false, false],
       [false, false, false, false, false, false, false, false, false],
       [false, false, true, true, true, true, false, false, false]⟩ := by decide

-- The worked example of test_create_future_labels (future_step 3,
-- thresh_entry 3/2, thresh_hold 0), and its negated mirror.

example :
    create_future_labels
      ⟨[2, 3, 4, 1, 3, 2, 0, 1, 2], [0, 1, 2, -1, 1, 0, -2, -1, 0]⟩ 3 (3/2) 0 =
      ⟨[false, false, false, false, false, false, false, false, false],
       [false, false, true, false, true, false, false, false, false],
       [true, false, true, true, true, false, false, false, false],
       [false, false, false, false, false, false, false, false, false]⟩ := by decide

example :
    create_future_labels
      ⟨[0, -1, -2, 1, -1, 0, 2, 1, 0], [-2, -3, -4, -1, -3, -2, 0, -1, -2]⟩ 3 (3/2) 0 =
      ⟨[false, false, true, false, true, false, false, false, false],
       [false, false, false, false, false, false, false, false, false],
       [false, false, false, false, false, false, false, false, false],
       [true, false, true, true, true, false, false, false, false]⟩ := by decide

/-! ## Helper lemmas about the order simulator -/

theorem closeCond_long (th : Rat) (pos : Order) (io : Bool) (rate : Rat)
    (lx sx : Bool) (h : pos.position_type = PositionType.long) :
    closeCond th pos io rate lx sx = true ↔
      (io = false ∨ lx = true ∨ th ≤ pos.entry_rate - rate) := by
  cases io <;> cases lx <;> simp [closeCond, h]

theorem closeCond_short (th : Rat) (pos : Order) (io : Bool) (rate : Rat)
    (lx sx : Bool) (h : pos.position_type = PositionType.short) :
    closeCond th pos io rate lx sx = true ↔
      (io = false ∨ sx = true ∨ th ≤ rate - pos.entry_rate) := by
  cases io <;> cases sx <;> simp [closeCond, h]

theorem step_open_position_eq (sim : OrderSimulator) (dt : DateTime) (rate : Rat)
    (le lx se sx : Bool) :
    (sim.step dt rate le lx se sx).open_position =
      entryPos (sim.exitPhase dt rate (sim.isOpen dt) lx sx).open_position
        (sim.isOpen dt) le se dt rate := rfl

theorem step_order_history_eq (sim : OrderSimulator) (dt : DateTime) (rate : Rat)
    (le lx se sx : Bool) :
    (sim.step dt rate le lx se sx).order_history =
      (sim.exitPhase dt rate (sim.isOpen dt) lx sx).order_history := rfl

theorem exitPhase_open_none (sim : OrderSimulator) (dt : DateTime) (rate : Rat)
    (io lx sx : Bool) (h : sim.open_position = none) :
    sim.exitPhase dt rate io lx sx = sim := by
  simp [OrderSimulator.exitPhase, h]

theorem exitPhase_closes (sim : OrderSimulator) (dt : DateTime) (rate : Rat)
    (io lx sx : Bool) (pos : Order) (h : sim.open_position = some pos)
    (hc : closeCond sim.thresh_losscut pos io rate lx sx = true) :
    sim.exitPhase dt rate io lx sx =
      { sim with order_history := sim.order_history ++ [pos.exit dt rate],
                 open_position := none } := by
  simp [OrderSimulator.exitPhase, h, hc]

theorem exitPhase_keeps (sim : OrderSimulator) (dt : DateTime) (rate : Rat)
    (io lx sx : Bool) (pos : Order) (h : sim.open_position = some pos)
    (hc : closeCond sim.thresh_losscut pos io rate lx sx = false) :
    sim.exitPhase dt rate io lx sx = sim := by
  simp [OrderSimulator.exitPhase, h, hc]

theorem entryPos_closed (cur : Option Order) (le se : Bool) (dt : DateTime)
    (rate : Rat) : entryPos cur false le se dt rate = cur := by
  simp [entryPos]

theorem entryPos_occupied (p : Order) (io le se : Bool) (dt : DateTime)
    (rate : Rat) : entryPos (some p) io le se dt rate = some p := by
  simp [entryPos]

theorem history_ne_append (l : List Order) (o : Order) : l ≠ l ++ [o] := by
  intro h
  have := congrArg List.length h
  simp at this

/-- Either a step leaves the history unchanged, or it appends exactly the
closed position, with exit fields set to this step's timestamp and rate. -/
theorem step_history_cases (sim : OrderSimulator) (dt : DateTime) (rate : Rat)
    (le lx se sx : Bool) :
    (sim.step dt rate le lx se sx).order_history = sim.order_history ∨
      ∃ pos, sim.open_position = some pos ∧
        (sim.step dt rate le lx se sx).order_history =
          sim.order_history ++ [pos.exit dt rate] := by
  rw [step_order_history_eq]
  cases hp : sim.open_position with
  | none => rw [exitPhase_open_none _ _ _ _ _ _ hp]; exact Or.inl rfl
  | some pos =>
    cases hc : closeCond sim.thresh_losscut pos (sim.isOpen dt) rate lx sx with
    | false => rw [exitPhase_keeps _ _ _ _ _ _ _ hp hc]; exact Or.inl rfl
    | true =>
      rw [exitPhase_closes _ _ _ _ _ _ _ hp hc]
      exact Or.inr ⟨pos, rfl, rfl⟩

/-! ## Claim C3 -/

/-- C3 counterexample: on a fresh simulator, a second step call with a
timestamp equal to (hence not strictly after) the previous call's timestamp
does not fail: it is processed by the ordinary exit rules, closing the
position opened by the first call and appending it to the history.  The
claimed NonMonotonicTimestamp failure does not exist in OrderSimulator.step,
which never inspects the previous call's timestamp. -/
theorem c3_counterexample :
    ((OrderSimulator.init 0 24 5).step ⟨2022, 1, 3, 10, 0⟩ 100 true false false false).step
        ⟨2022, 1, 3, 10, 0⟩ 100 false true false false =
      ⟨0, 24, 5, [⟨.long, ⟨2022, 1, 3, 10, 0⟩, 100, some ⟨2022, 1, 3, 10, 0⟩, some 100⟩],
        none⟩ := by
  decide

/-- C3 amended: OrderSimulator.step performs no timestamp-monotonicity
validation and never fails.  The simulator keeps no record of the previous
call's timestamp: the only accumulated state is order_history and
open_position, and the behavior of a step is independent of order_history —
it appends the same (possibly empty) suffix and produces the same
open_position whatever the accumulated history is.  Hence a call whose
timestamp is not strictly after the previous one is processed by the same
exit/entry rules as any other call. -/
theorem c3_no_timestamp_validation (sim : OrderSimulator) (h : List Order)
    (dt : DateTime) (rate : Rat) (le lx se sx : Bool) :
    ∃ d, (sim.step dt rate le lx se sx).order_history = sim.order_history ++ d ∧
      ({ sim with order_history := h }.step dt rate le lx se sx).order_history = h ++ d ∧
      ({ sim with order_history := h }.step dt rate le lx se sx).open_position =
        (sim.step dt rate le lx se sx).open_position := by
  cases hp : sim.open_position with
  | none =>
    have hio : ({ sim with order_history := h, open_position := none } :
        OrderSimulator).isOpen dt = sim.isOpen dt := rfl
    refine ⟨[], ?_, ?_, ?_⟩ <;>
      simp [OrderSimulator.step, OrderSimulator.exitPhase, OrderSimulator.entryPhase,
        hp, hio]
  | some pos =>
    have hio : ({ sim with order_history := h, open_position := some pos } :
        OrderSimulator).isOpen dt = sim.isOpen dt := rfl
    cases hc : closeCond sim.thresh_losscut pos (sim.isOpen dt) rate lx sx with
    | false =>
      refine ⟨[], ?_, ?_, ?_⟩ <;>
        simp [OrderSimulator.step, OrderSimulator.exitPhase, OrderSimulator.entryPhase,
          hp, hio, hc]
    | true =>
      refine ⟨[pos.exit dt rate], ?_, ?_, ?_⟩ <;>
        simp [OrderSimulator.step, OrderSimulator.exitPhase, OrderSimulator.entryPhase,
          hp, hio, hc]

/-! ## Claim C5 -/

/-- C5: the Extremum Detector, applied to the two concrete series of
test_compute_ctirical_idxs with threshold 1.5, returns exactly [2, 3, 6, 8]
and [0, 3, 5] respectively. -/
theorem c5_detector_test_vectors :
    compute_critical_idxs [1, 2, 3, 0, 2, 1, 5, 3, 1] (3/2) = [2, 3, 6, 8] ∧
    compute_critical_idxs [3, 2, 1, 0, 1, 2, 1, 9/10, 4/5] (3/2) = [0, 3, 5] := by
  exact ⟨by decide, by decide⟩

/-! ## Claim C6 -/

/-- C6: is_open holds exactly when start_hour ≤ hour < end_hour and the date
is not December 25; when it is false, the same predicate both forces a
time-based exit of any open position within the same step and blocks all new
entries (a flat simulator is left completely unchanged). -/
theorem c6_trading_window :
    (∀ (sim : OrderSimulator) (dt : DateTime),
      sim.isOpen dt = true ↔
        (sim.start_hour ≤ dt.hour ∧ dt.hour < sim.end_hour ∧
          ¬(dt.month = 12 ∧ dt.day = 25))) ∧
    (∀ (sim : OrderSimulator) (dt : DateTime) (rate : Rat) (le lx se sx : Bool)
      (pos : Order), sim.isOpen dt = false → sim.open_position = some pos →
        (sim.step dt rate le lx se sx).open_position = none ∧
        (sim.step dt rate le lx se sx).order_history =
          sim.order_history ++ [pos.exit dt rate]) ∧
    (∀ (sim : OrderSimulator) (dt : DateTime) (rate : Rat) (le lx se sx : Bool),
      sim.isOpen dt = false → sim.open_position = none →
        sim.step dt rate le lx se sx = sim) := by
  refine ⟨?_, ?_, ?_⟩
  · intro sim dt
    simp only [OrderSimulator.isOpen, Bool.and_eq_true, Bool.not_eq_true',
      Bool.and_eq_false_iff, decide_eq_true_eq, decide_eq_false_iff_not]
    tauto
  · intro sim dt rate le lx se sx pos hio hp
    have hc : closeCond sim.thresh_losscut pos (sim.isOpen dt) rate lx sx = true := by
      cases h : pos.position_type
      · exact (closeCond_long _ _ _ _ _ _ h).2 (Or.inl hio)
      · exact (closeCond_short _ _ _ _ _ _ h).2 (Or.inl hio)
    constructor
    · rw [step_open_position_eq, exitPhase_closes _ _ _ _ _ _ _ hp hc, hio]
      exact entryPos_closed _ _ _ _ _
    · rw [step_order_history_eq, exitPhase_closes _ _ _ _ _ _ _ hp hc]
  · intro sim dt rate le lx se sx hio hp
    show (sim.exitPhase dt rate (sim.isOpen dt) lx sx).entryPhase dt rate
      (sim.isOpen dt) le se = sim
    rw [exitPhase_open_none _ _ _ _ _ _ hp, hio]
    show { sim with open_position := entryPos sim.open_position false le se dt rate } = sim
    rw [entryPos_closed]

/-! ## Claim C7 -/

/-- C7: once an exit has been recorded, gain is exit_rate − entry_rate for a
LONG order and entry_rate − exit_rate for a SHORT order; reading gain on an
order whose exit has not been recorded fails (embedded as none). -/
theorem c7_gain_convention :
    (∀ (o : Order) (t : DateTime) (r : Rat),
      (o.exit t r).gain =
        some (if o.position_type = PositionType.long then r - o.entry_rate
          else o.entry_rate - r)) ∧
    (∀ o : Order, o.exit_rate = none → o.gain = none) := by
  constructor
  · intro o t r
    cases h : o.position_type <;> simp [Order.gain, Order.exit, h, neg_sub]
  · intro o h
    simp [Order.gain, h]

/-- C7 witness: a SHORT order entered at rate 100 and exited at 101 has gain
−1, and gain on an order with no exit recorded is unreadable. -/
theorem c7_witness :
    ((Order.mk PositionType.short ⟨2022, 1, 2, 10, 0⟩ 100 none none).exit
      ⟨2022, 1, 2, 10, 5⟩ 101).gain = some (-1) ∧
    (Order.mk PositionType.long ⟨2022, 1, 2, 10, 0⟩ 100 none none).gain = none := by
  constructor
  · have h := c7_gain_convention.1
      (Order.mk PositionType.short ⟨2022, 1, 2, 10, 0⟩ 100 none none)
      ⟨2022, 1, 2, 10, 5⟩ 101
    rw [h, if_neg (by decide)]
    norm_num
  · exact c7_gain_convention.2 _ rfl

/-! ## Claim C1 -/

/-- C1: with a position open, the step appends that position — exit fields
set to this call's timestamp and rate — to the history exactly once if and
only if the closing condition of its direction holds (not is_open, or the
matching exit flag, or a loss of at least thresh_losscut); otherwise both the
history and the open position are left untouched; and whenever the close
happens the closed position is gone from open_position, which afterwards can
only be empty or a fresh entry made later in the same call (exit evaluation
precedes entry evaluation). -/
theorem c1_exit_conditions (sim : OrderSimulator) (dt : DateTime) (rate : Rat)
    (le lx se sx : Bool) (pos : Order) (hpos : sim.open_position = some pos) :
    (pos.position_type = PositionType.long →
      (((sim.step dt rate le lx se sx).order_history =
          sim.order_history ++ [pos.exit dt rate]) ↔
        (sim.isOpen dt = false ∨ lx = true ∨
          sim.thresh_losscut ≤ pos.entry_rate - rate)) ∧
      (¬(sim.isOpen dt = false ∨ lx = true ∨
          sim.thresh_losscut ≤ pos.entry_rate - rate) →
        (sim.step dt rate le lx se sx).order_history = sim.order_history ∧
        (sim.step dt rate le lx se sx).open_position = some pos)) ∧
    (pos.position_type = PositionType.short →
      (((sim.step dt rate le lx se sx).order_history =
          sim.order_history ++ [pos.exit dt rate]) ↔
        (sim.isOpen dt = false ∨ sx = true ∨
          sim.thresh_losscut ≤ rate - pos.entry_rate)) ∧
      (¬(sim.isOpen dt = false ∨ sx = true ∨
          sim.thresh_losscut ≤ rate - pos.entry_rate) →
        (sim.step dt rate le lx se sx).order_history = sim.order_history ∧
        (sim.step dt rate le lx se sx).open_position = some pos)) ∧
    ((sim.step dt rate le lx se sx).order_history =
        sim.order_history ++ [pos.exit dt rate] →
      (sim.step dt rate le lx se sx).open_position = none ∨
      ∃ o, (sim.step dt rate le lx se sx).open_position = some o ∧
        o.entry_time = dt ∧ o.entry_rate = rate ∧ o.exit_time = none) := by
  cases hc : closeCond sim.thresh_losscut pos (sim.isOpen dt) rate lx sx with
  | true =>
    have hstep : sim.step dt rate le lx se sx =
        ({ sim with
            order_history := sim.order_history ++ [pos.exit dt rate],
            open_position := none } : OrderSimulator).entryPhase dt rate
          (sim.isOpen dt) le se := by
      show (sim.exitPhase dt rate (sim.isOpen dt) lx sx).entryPhase dt rate
        (sim.isOpen dt) le se = _
      rw [exitPhase_closes _ _ _ _ _ _ _ hpos hc]
    refine ⟨?_, ?_, ?_⟩
    · intro hl
      refine ⟨⟨fun _ => (closeCond_long _ _ _ _ _ _ hl).1 hc, fun _ => ?_⟩,
        fun hnc => absurd ((closeCond_long _ _ _ _ _ _ hl).1 hc) hnc⟩
      rw [hstep]
      rfl
    · intro hs
      refine ⟨⟨fun _ => (closeCond_short _ _ _ _ _ _ hs).1 hc, fun _ => ?_⟩,
        fun hnc => absurd ((closeCond_short _ _ _ _ _ _ hs).1 hc) hnc⟩
      rw [hstep]
      rfl
    · intro _
      rw [hstep]
      cases hio : sim.isOpen dt <;> cases hle : le <;> cases hse : se <;>
        simp [OrderSimulator.entryPhase, entryPos]
  | false =>
    have hstep : sim.step dt rate le lx se sx =
        sim.entryPhase dt rate (sim.isOpen dt) le se := by
      show (sim.exitPhase dt rate (sim.isOpen dt) lx sx).entryPhase dt rate
        (sim.isOpen dt) le se = _
      rw [exitPhase_keeps _ _ _ _ _ _ _ hpos hc]
    have hhist : (sim.step dt rate le lx se sx).order_history =
        sim.order_history := by rw [hstep]; rfl
    have hopen : (sim.step dt rate le lx se sx).open_position = some pos := by
      rw [hstep]
      show entryPos sim.open_position (sim.isOpen dt) le se dt rate = some pos
      rw [hpos, entryPos_occupied]
    have hne : ¬((sim.step dt rate le lx se sx).order_history =
        sim.order_history ++ [pos.exit dt rate]) := by
      rw [hhist]; exact history_ne_append _ _
    refine ⟨?_, ?_, fun habs => absurd habs hne⟩
    · intro hl
      refine ⟨⟨fun habs => absurd habs hne, ?_⟩, fun _ => ⟨hhist, hopen⟩⟩
      intro hcond
      exact absurd
        ((closeCond_long sim.thresh_losscut pos (sim.isOpen dt) rate lx sx hl).2 hcond)
        (by simp [hc])
    · intro hs
      refine ⟨⟨fun habs => absurd habs hne, ?_⟩, fun _ => ⟨hhist, hopen⟩⟩
      intro hcond
      exact absurd
        ((closeCond_short sim.thresh_losscut pos (sim.isOpen dt) rate lx sx hs).2 hcond)
        (by simp [hc])

/-- C1 witness: a LONG position entered at 100 closes when both the exit flag
and a loss-cut breach hold simultaneously, is appended to the history exactly
once, and the open position is cleared. -/
theorem c1_witness :
    ((⟨0, 24, 5, [], some ⟨.long, ⟨2022, 1, 3, 10, 0⟩, 100, none, none⟩⟩ :
        OrderSimulator).step ⟨2022, 1, 3, 10, 1⟩ 95 false true false false).order_history =
      [Order.exit ⟨.long, ⟨2022, 1, 3, 10, 0⟩, 100, none, none⟩ ⟨2022, 1, 3, 10, 1⟩ 95] := by
  have h := c1_exit_conditions
    ⟨0, 24, 5, [], some ⟨.long, ⟨2022, 1, 3, 10, 0⟩, 100, none, none⟩⟩
    ⟨2022, 1, 3, 10, 1⟩ 95 false true false false
    ⟨.long, ⟨2022, 1, 3, 10, 0⟩, 100, none, none⟩ rfl
  exact (h.1 rfl).1.mpr (Or.inr (Or.inl rfl))

/-! ## Claim C2 -/

/-- C2: if the simulator is flat after exit evaluation and is_open holds, a
set long_entry flag opens a LONG order at (timestamp, price); failing that, a
set short_entry flag opens a SHORT order; hence with both flags set the
resulting order is always LONG; and nothing opens when is_open is false or
when a position survived exit evaluation. -/
theorem c2_entry_priority (sim : OrderSimulator) (dt : DateTime) (rate : Rat)
    (le lx se sx : Bool) :
    ((sim.exitPhase dt rate (sim.isOpen dt) lx sx).open_position = none →
      sim.isOpen dt = true →
        ((le = true →
          (sim.step dt rate le lx se sx).open_position =
            some (Order.mk .long dt rate none none)) ∧
         (le = false → se = true →
          (sim.step dt rate le lx se sx).open_position =
            some (Order.mk .short dt rate none none)) ∧
         (le = false → se = false →
          (sim.step dt rate le lx se sx).open_position = none))) ∧
    (sim.isOpen dt = false →
      (sim.step dt rate le lx se sx).open_position =
        (sim.exitPhase dt rate (sim.isOpen dt) lx sx).open_position) ∧
    (∀ p, (sim.exitPhase dt rate (sim.isOpen dt) lx sx).open_position = some p →
      (sim.step dt rate le lx se sx).open_position = some p) := by
  rw [step_open_position_eq]
  refine ⟨?_, ?_, ?_⟩
  · intro hflat hio
    rw [hflat, hio]
    refine ⟨?_, ?_, ?_⟩
    · intro hle; rw [hle]; simp [entryPos]
    · intro hle hse; rw [hle, hse]; simp [entryPos]
    · intro hle hse; rw [hle, hse]; simp [entryPos]
  · intro hio; rw [hio]; exact entryPos_closed _ _ _ _ _
  · intro p hp; rw [hp]; exact entryPos_occupied _ _ _ _ _ _

/-- C2 witness: on a flat simulator inside the trading window with both entry
flags set, the opened order is LONG. -/
theorem c2_witness :
    ((OrderSimulator.init 0 24 5).step ⟨2022, 1, 3, 10, 0⟩ 100 true false true false).open_position =
      some (Order.mk .long ⟨2022, 1, 3, 10, 0⟩ 100 none none) := by
  have h := c2_entry_priority (OrderSimulator.init 0 24 5) ⟨2022, 1, 3, 10, 0⟩
    100 true false true false
  exact (h.1 rfl (by decide)).1 rfl

/-- C6 witness: a LONG position entered at 21:58 at rate 598 is force-closed
at 22:00 (outside hours 2–22) at that bar's rate 600, and a flat simulator
outside hours rejects an entry flag. -/
theorem c6_witness :
    ((⟨2, 22, 5, [], some ⟨.long, ⟨2022, 1, 3, 21, 58⟩, 598, none, none⟩⟩ :
        OrderSimulator).step ⟨2022, 1, 3, 22, 0⟩ 600 false false false false).order_history =
      [Order.exit ⟨.long, ⟨2022, 1, 3, 21, 58⟩, 598, none, none⟩ ⟨2022, 1, 3, 22, 0⟩ 600] ∧
    (OrderSimulator.init 2 22 5).step ⟨2022, 1, 3, 1, 59⟩ 100 true false false false =
      OrderSimulator.init 2 22 5 := by
  constructor
  · exact (c6_trading_window.2.1
      ⟨2, 22, 5, [], some ⟨.long, ⟨2022, 1, 3, 21, 58⟩, 598, none, none⟩⟩
      ⟨2022, 1, 3, 22, 0⟩ 600 false false false false
      ⟨.long, ⟨2022, 1, 3, 21, 58⟩, 598, none, none⟩ (by decide) rfl).2
  · exact c6_trading_window.2.2 (OrderSimulator.init 2 22 5) ⟨2022, 1, 3, 1, 59⟩
      100 true false false false (by decide) rfl

/-! ## Claim C8 -/

theorem rowsOf_spec :
    ∀ (l : List Order) (rows : List ResultRow), rowsOf l = some rows →
      rows.length = l.length ∧
      ∀ i (hi : i < l.length) (hr : i < rows.length),
        (l.get ⟨i, hi⟩).toRow = some (rows.get ⟨i, hr⟩) := by
  intro l
  induction l with
  | nil =>
    intro rows h
    simp only [rowsOf, Option.some.injEq] at h
    subst h
    exact ⟨rfl, fun i hi => absurd hi (Nat.not_lt_zero i)⟩
  | cons o t ih =>
    intro rows h
    simp only [rowsOf] at h
    cases hr1 : o.toRow with
    | none => rw [hr1] at h; simp at h
    | some r =>
      cases hr2 : rowsOf t with
      | none => rw [hr1, hr2] at h; simp at h
      | some rs =>
        rw [hr1, hr2] at h
        simp only [Option.some.injEq] at h
        subst h
        obtain ⟨hlen, hget⟩ := ih rs hr2
        refine ⟨by simp [hlen], ?_⟩
        intro i hi hr
        cases i with
        | zero => simpa using hr1
        | succ j =>
          simpa using hget j (by simpa using hi) (by simpa using hr)

/-- C8: export_results produces exactly one row per order in order_history
and in history order (row i is derived from history entry i with the six
columns position_type, entry_time, exit_time, entry_rate, exit_rate, gain);
the history itself grows only by appending the position closed by a step, so
row order is close order; and the exported table is entirely independent of
open_position — an order still open when the stream ends is neither
auto-closed nor exported. -/
theorem c8_export_schema :
    (∀ (sim : OrderSimulator) (rows : List ResultRow),
      sim.export_results = some rows →
        rows.length = sim.order_history.length ∧
        ∀ i (hi : i < sim.order_history.length) (hr : i < rows.length),
          (sim.order_history.get ⟨i, hi⟩).toRow = some (rows.get ⟨i, hr⟩)) ∧
    (∀ (sim : OrderSimulator) (dt : DateTime) (rate : Rat) (le lx se sx : Bool),
      (sim.step dt rate le lx se sx).order_history = sim.order_history ∨
        ∃ pos, sim.open_position = some pos ∧
          (sim.step dt rate le lx se sx).order_history =
            sim.order_history ++ [pos.exit dt rate]) ∧
    (∀ (sim : OrderSimulator) (p : Option Order),
      ({ sim with open_position := p } : OrderSimulator).export_results =
        sim.export_results) := by
  refine ⟨?_, ?_, ?_⟩
  · intro sim rows h
    exact rowsOf_spec sim.order_history rows h
  · intro sim dt rate le lx se sx
    exact step_history_cases sim dt rate le lx se sx
  · intro sim p
    rfl

/-- C8 witness: on a history with a single closed order, export yields the
single corresponding row, whatever open_position holds. -/
theorem c8_witness :
    (Order.mk .long ⟨2022, 1, 3, 10, 0⟩ 100 (some ⟨2022, 1, 3, 10, 5⟩)
      (some 103)).toRow =
      some ⟨"long", ⟨2022, 1, 3, 10, 0⟩, some ⟨2022, 1, 3, 10, 5⟩, 100, some 103, 3⟩ := by
  have h := c8_export_schema.1
    ⟨0, 24, 5, [⟨.long, ⟨2022, 1, 3, 10, 0⟩, 100, some ⟨2022, 1, 3, 10, 5⟩, some 103⟩],
      none⟩
    [⟨"long", ⟨2022, 1, 3, 10, 0⟩, some ⟨2022, 1, 3, 10, 5⟩, 100, some 103, 3⟩]
    (by decide)
  exact h.2 0 (by decide) (by decide)

/-! ## Claim C10 -/

/-- Every order in the history has both exit fields recorded. -/
def HistClosed (sim : OrderSimulator) : Prop :=
  ∀ o ∈ sim.order_history, o.exit_time ≠ none ∧ o.exit_rate ≠ none

theorem histClosed_step (sim : OrderSimulator) (dt : DateTime) (rate : Rat)
    (le lx se sx : Bool) (h : HistClosed sim) :
    HistClosed (sim.step dt rate le lx se sx) := by
  intro o ho
  rcases step_history_cases sim dt rate le lx se sx with heq | ⟨pos, _, heq⟩
  · exact h o (heq ▸ ho)
  · rw [heq] at ho
    rcases List.mem_append.1 ho with h1 | h2
    · exact h o h1
    · rw [List.mem_singleton.1 h2]
      exact ⟨Option.some_ne_none _, Option.some_ne_none _⟩

theorem run_histClosed :
    ∀ (inputs : List StepInput) (sim : OrderSimulator),
      HistClosed sim → HistClosed (sim.run inputs) := by
  intro inputs
  induction inputs with
  | nil => exact fun sim h => h
  | cons inp rest ih =>
    intro sim h
    exact ih _ (histClosed_step sim inp.dt inp.rate inp.long_entry inp.long_exit
      inp.short_entry inp.short_exit h)

theorem rowsOf_total :
    ∀ l : List Order, (∀ o ∈ l, o.exit_rate ≠ none) →
      ∃ rows, rowsOf l = some rows := by
  intro l
  induction l with
  | nil => exact fun _ => ⟨[], rfl⟩
  | cons o t ih =>
    intro h
    obtain ⟨rows, hrows⟩ := ih fun o ho => h o (List.mem_cons_of_mem _ ho)
    have her : o.exit_rate ≠ none := h o (List.mem_cons_self o t)
    cases hx : o.exit_rate with
    | none => exact absurd hx her
    | some er =>
      cases hp : o.position_type with
      | long =>
        refine ⟨⟨PositionType.long.value, o.entry_time, o.exit_time, o.entry_rate,
          some er, er - o.entry_rate⟩ :: rows, ?_⟩
        simp [rowsOf, Order.toRow, Order.gain, hx, hp, hrows]
      | short =>
        refine ⟨⟨PositionType.short.value, o.entry_time, o.exit_time, o.entry_rate,
          some er, o.entry_rate - er⟩ :: rows, ?_⟩
        simp [rowsOf, Order.toRow, Order.gain, hx, hp, hrows, neg_sub]

/-- C10: in every simulator state reachable from a fresh instance by step
calls, every order in order_history has its exit fields recorded (only the
order held in open_position can be un-exited), so export_results succeeds:
it can read gain on every history row. -/
theorem c10_history_closed (sh eh : Nat) (th : Rat) (inputs : List StepInput) :
    HistClosed ((OrderSimulator.init sh eh th).run inputs) ∧
    ∃ rows, ((OrderSimulator.init sh eh th).run inputs).export_results = some rows := by
  have h : HistClosed ((OrderSimulator.init sh eh th).run inputs) :=
    run_histClosed inputs _ (fun o ho => absurd ho (List.not_mem_nil o))
  exact ⟨h, rowsOf_total _ fun o ho => (h o ho).2⟩

/-- C10 witness: a concrete two-step run (open LONG, close it) yields a
reachable state whose history is fully closed and exports successfully. -/
theorem c10_witness :
    HistClosed ((OrderSimulator.init 0 24 5).run
      [⟨⟨2022, 1, 3, 10, 0⟩, 100, true, false, false, false⟩,
       ⟨⟨2022, 1, 3, 10, 1⟩, 103, false, true, false, false⟩]) ∧
    ∃ rows, ((OrderSimulator.init 0 24 5).run
      [⟨⟨2022, 1, 3, 10, 0⟩, 100, true, false, false, false⟩,
       ⟨⟨2022, 1, 3, 10, 1⟩, 103, false, true, false, false⟩]).export_results =
        some rows :=
  c10_history_closed 0 24 5
    [⟨⟨2022, 1, 3, 10, 0⟩, 100, true, false, false, false⟩,
     ⟨⟨2022, 1, 3, 10, 1⟩, 103, false, true, false, false⟩]

/-! ## Claim C9 -/

theorem rangeMap_getD (n : Nat) (f : Nat → Bool) (i : Nat) :
    ((List.range n).map f).getD i false = if i < n then f i else false := by
  by_cases h : i < n
  · rw [if_pos h, List.getD_eq_getElem?_getD, List.getElem?_map, List.getElem?_range h]
    rfl
  · rw [if_neg h]
    apply List.getD_eq_default
    simpa using Nat.le_of_not_lt h

theorem smaCenteredAt_eq_none (s : List Rat) (w i : Nat)
    (h : ¬(w ≤ i + w / 2 + 1 ∧ i + w / 2 < s.length)) :
    smaCenteredAt s w i = none := by
  rw [smaCenteredAt, if_neg h]

theorem smatrendPair_eq_none (s : List Rat) (w sb sa i : Nat)
    (h : ¬(sb + (w - 1 - w / 2) ≤ i ∧ i + sa + w / 2 < s.length)) :
    smatrendPair s w sb sa i = none := by
  rw [smatrendPair]
  by_cases hsb : sb ≤ i
  · rw [if_pos hsb]
    rcases Nat.lt_or_ge i (sb + (w - 1 - w / 2)) with hl | hl
    · have h1 : smaCenteredAt s w (i - sb) = none :=
        smaCenteredAt_eq_none s w (i - sb) (by omega)
      rw [h1]
    · have h3 : smaCenteredAt s w (i + sa) = none :=
        smaCenteredAt_eq_none s w (i + sa) (by omega)
      rw [h3]
      cases smaCenteredAt s w (i - sb) <;> cases smaCenteredAt s w i <;> rfl
  · rw [if_neg hsb]

theorem smatrendExitPair_eq_none (s : List Rat) (w i : Nat)
    (h : ¬(w - 1 - w / 2 ≤ i ∧ i + 1 + w / 2 < s.length)) :
    smatrendExitPair s w i = none := by
  rw [smatrendExitPair]
  rcases Nat.lt_or_ge i (w - 1 - w / 2) with hl | hl
  · have h1 : smaCenteredAt s w i = none :=
      smaCenteredAt_eq_none s w i (by omega)
    rw [h1]
  · have h2 : smaCenteredAt s w (i + 1) = none :=
      smaCenteredAt_eq_none s w (i + 1) (by omega)
    rw [h2]
    cases smaCenteredAt s w i <;> rfl

/-- C9: wherever the configured window requirement of the smadiff,
future-delta or sma-trend signal generator is unmet — leading indices with an
incomplete trailing, centered or lookback window, or trailing indices with an
incomplete forward, centered or lookahead window, ranges fixed by the
configured window sizes — all four output channels are false; the generators
are total functions and never fail on insufficient window data. -/
theorem c9_window_edges_false (df : PriceFrame) (wb wa fs w sb sa : Nat)
    (te th : Rat) (i : Nat) :
    (¬(wb ≤ i ∧ i + wa < df.low.length) →
      (create_smadiff_labels df wb wa te th).long_entry.getD i false = false ∧
      (create_smadiff_labels df wb wa te th).long_exit.getD i false = false) ∧
    (¬(wb ≤ i ∧ i + wa < df.high.length) →
      (create_smadiff_labels df wb wa te th).short_entry.getD i false = false ∧
      (create_smadiff_labels df wb wa te th).short_exit.getD i false = false) ∧
    (¬(i + fs < df.low.length) →
      (create_future_labels df fs te th).long_entry.getD i false = false ∧
      (create_future_labels df fs te th).long_exit.getD i false = false) ∧
    (¬(i + fs < df.high.length) →
      (create_future_labels df fs te th).short_entry.getD i false = false ∧
      (create_future_labels df fs te th).short_exit.getD i false = false) ∧
    (¬(sb + (w - 1 - w / 2) ≤ i ∧ i + sa + w / 2 < df.low.length) →
      (create_smatrend_labels df w sb sa te).long_entry.getD i false = false) ∧
    (¬(sb + (w - 1 - w / 2) ≤ i ∧ i + sa + w / 2 < df.high.length) →
      (create_smatrend_labels df w sb sa te).short_entry.getD i false = false) ∧
    (¬(w - 1 - w / 2 ≤ i ∧ i + 1 + w / 2 < df.low.length) →
      (create_smatrend_labels df w sb sa te).long_exit.getD i false = false) ∧
    (¬(w - 1 - w / 2 ≤ i ∧ i + 1 + w / 2 < df.high.length) →
      (create_smatrend_labels df w sb sa te).short_exit.getD i false = false) := by
  refine ⟨fun h => ⟨?_, ?_⟩, fun h => ⟨?_, ?_⟩, fun h => ⟨?_, ?_⟩, fun h => ⟨?_, ?_⟩,
      fun h => ?_, fun h => ?_, fun h => ?_, fun h => ?_⟩ <;>
    simp only [create_smadiff_labels, create_future_labels, create_smatrend_labels] <;>
    rw [rangeMap_getD] <;>
    split <;>
    first
      | (rw [smatrendPair_eq_none _ _ _ _ _ h])
      | (rw [smatrendExitPair_eq_none _ _ _ h])
      | simp [smadiffDiff, futureDiff, h]

/-- C9 witness: on the nine-bar test frame, index 1 (incomplete trailing
window) and index 8 (incomplete forward window) carry no smadiff signal and
index 7 carries no future-delta signal; on the fifteen-bar sma-trend test
frame, index 2 (incomplete lookback span) and index 14 (incomplete centered
window ahead) carry no sma-trend signal. -/
theorem c9_witness :
    ((create_smadiff_labels
        ⟨[2, 3, 4, 1, 3, 2, 0, 1, 2], [0, 1, 2, -1, 1, 0, -2, -1, 0]⟩ 2 3 1 0).long_entry.getD
      1 false = false) ∧
    ((create_smadiff_labels
        ⟨[2, 3, 4, 1, 3, 2, 0, 1, 2], [0, 1, 2, -1, 1, 0, -2, -1, 0]⟩ 2 3 1 0).short_exit.getD
      8 false = false) ∧
    ((create_future_labels
        ⟨[2, 3, 4, 1, 3, 2, 0, 1, 2], [0, 1, 2, -1, 1, 0, -2, -1, 0]⟩ 3 (3/2) 0).long_exit.getD
      7 false = false) ∧
    ((create_smatrend_labels
        ⟨[1, 2, 3, 4, 8, 9, 7, 17, 15, 4, 11, 9, -5, 8, 6],
         [-1, 0, 1, 2, 6, 7, 5, 15, 13, 2, 9, 7, -7, 6, 4]⟩ 3 2 2 4).long_entry.getD
      2 false = false) ∧
    ((create_smatrend_labels
        ⟨[1, 2, 3, 4, 8, 9, 7, 17, 15, 4, 11, 9, -5, 8, 6],
         [-1, 0, 1, 2, 6, 7, 5, 15, 13, 2, 9, 7, -7, 6, 4]⟩ 3 2 2 4).short_exit.getD
      14 false = false) := by
  refine ⟨?_, ?_, ?_, ?_, ?_⟩
  · exact ((c9_window_edges_false
      ⟨[2, 3, 4, 1, 3, 2, 0, 1, 2], [0, 1, 2, -1, 1, 0, -2, -1, 0]⟩ 2 3 3 3 2 2 1 0 1).1
      (by decide)).1
  · exact ((c9_window_edges_false
      ⟨[2, 3, 4, 1, 3, 2, 0, 1, 2], [0, 1, 2, -1, 1, 0, -2, -1, 0]⟩ 2 3 3 3 2 2 1 0 8).2.1
      (by decide)).2
  · exact ((c9_window_edges_false
      ⟨[2, 3, 4, 1, 3, 2, 0, 1, 2], [0, 1, 2, -1, 1, 0, -2, -1, 0]⟩ 2 3 3 3 2 2 (3/2) 0 7).2.2.1
      (by decide)).2
  · exact (c9_window_edges_false
      ⟨[1, 2, 3, 4, 8, 9, 7, 17, 15, 4, 11, 9, -5, 8, 6],
       [-1, 0, 1, 2, 6, 7, 5, 15, 13, 2, 9, 7, -7, 6, 4]⟩ 2 3 3 3 2 2 4 0 2).2.2.2.2.1
      (by decide)
  · exact (c9_window_edges_false
      ⟨[1, 2, 3, 4, 8, 9, 7, 17, 15, 4, 11, 9, -5, 8, 6],
       [-1, 0, 1, 2, 6, 7, 5, 15, 13, 2, 9, 7, -7, 6, 4]⟩ 2 3 3 3 2 2 4 0 14).2.2.2.2.2.2.2
      (by decide)

/-! ## Claim C4 -/

theorem getD_of_drop {α : Type} (d : α) :
    ∀ (l : List α) (i : Nat) (v : α) (rest : List α),
      l.drop i = v :: rest → l.getD i d = v := by
  intro l
  induction l with
  | nil => intro i v rest h; simp at h
  | cons a t ih =>
    intro i v rest h
    cases i with
    | zero =>
      simp only [List.drop_zero, List.cons.injEq] at h
      simp [h.1]
    | succ j =>
      rw [List.drop_succ_cons] at h
      simpa using ih j v rest h

theorem chain'_append_singleton {α : Type} {R : α → α → Prop} {l : List α} {c : α}
    (h : List.Chain' R l) (hlink : ∀ x, l.getLast? = some x → R x c) :
    List.Chain' R (l ++ [c]) := by
  rw [List.chain'_append]
  refine ⟨h, List.chain'_singleton c, ?_⟩
  intro x hx y hy
  have hyc : c = y := by simpa using hy
  subst hyc
  exact hlink x (Option.mem_def.1 hx)

theorem chain'_lt_replace_last {l : List Nat} {c j : Nat}
    (h : List.Chain' (· < ·) (l ++ [c])) (hcj : c < j) :
    List.Chain' (· < ·) (l ++ [j]) := by
  rw [List.chain'_append] at h ⊢
  obtain ⟨hl, -, hlink⟩ := h
  refine ⟨hl, List.chain'_singleton j, ?_⟩
  intro x hx y hy
  have hyj : j = y := by simpa using hy
  subst hyj
  exact (hlink x hx c (by simp)).trans hcj

theorem chain'_lt_last {l : List Nat} {c : Nat}
    (h : List.Chain' (· < ·) (l ++ [c])) :
    ∀ x, l.getLast? = some x → x < c := by
  intro x hx
  exact (List.chain'_append.1 h).2.2 x (Option.mem_def.2 hx) c (by simp)

/-- Committed indices a then b mark a price swing of at least thresh. -/
def swingOK (values : List Rat) (thresh : Rat) (a b : Nat) : Prop :=
  thresh ≤ |values.getD b 0 - values.getD a 0|

/-- Invariant of the zigzag scan holding before index i is consumed: the
candidate is a past index carrying its own value, committed indices followed
by the candidate are strictly increasing, consecutive commits are ≥ thresh
apart, and the candidate has already moved ≥ thresh away from the last commit
in the scan direction. -/
def ZigzagInv (values : List Rat) (thresh : Rat) (st : ZigzagState) (i : Nat) :
    Prop :=
  st.candIdx < i ∧
  List.Chain' (· < ·) (st.commits ++ [st.candIdx]) ∧
  values.getD st.candIdx 0 = st.candVal ∧
  List.Chain' (swingOK values thresh) st.commits ∧
  ∀ l, st.commits.getLast? = some l →
    (st.rising = true → thresh ≤ st.candVal - values.getD l 0) ∧
    (st.rising = false → thresh ≤ values.getD l 0 - st.candVal)

theorem zigzagStep_up (thresh : Rat) (st : ZigzagState) (i : Nat) (v : Rat)
    (hr : st.rising = true) (hup : st.candVal < v) :
    zigzagStep thresh st i v = { st with candIdx := i, candVal := v } := by
  simp [zigzagStep, hr, hup]

theorem zigzagStep_flip_down (thresh : Rat) (st : ZigzagState) (i : Nat) (v : Rat)
    (hr : st.rising = true) (hup : ¬st.candVal < v) (hf : thresh ≤ st.candVal - v) :
    zigzagStep thresh st i v = ⟨false, i, v, st.commits ++ [st.candIdx]⟩ := by
  simp [zigzagStep, hr, hup, hf]

theorem zigzagStep_hold_up (thresh : Rat) (st : ZigzagState) (i : Nat) (v : Rat)
    (hr : st.rising = true) (hup : ¬st.candVal < v) (hf : ¬thresh ≤ st.candVal - v) :
    zigzagStep thresh st i v = st := by
  simp [zigzagStep, hr, hup, hf]

theorem zigzagStep_down (thresh : Rat) (st : ZigzagState) (i : Nat) (v : Rat)
    (hr : st.rising = false) (hdn : v < st.candVal) :
    zigzagStep thresh st i v = { st with candIdx := i, candVal := v } := by
  simp [zigzagStep, hr, hdn]

theorem zigzagStep_flip_up (thresh : Rat) (st : ZigzagState) (i : Nat) (v : Rat)
    (hr : st.rising = false) (hdn : ¬v < st.candVal) (hf : thresh ≤ v - st.candVal) :
    zigzagStep thresh st i v = ⟨true, i, v, st.commits ++ [st.candIdx]⟩ := by
  simp [zigzagStep, hr, hdn, hf]

theorem zigzagStep_hold_down (thresh : Rat) (st : ZigzagState) (i : Nat) (v : Rat)
    (hr : st.rising = false) (hdn : ¬v < st.candVal) (hf : ¬thresh ≤ v - st.candVal) :
    zigzagStep thresh st i v = st := by
  simp [zigzagStep, hr, hdn, hf]

theorem zigzagStep_inv (values : List Rat) (thresh : Rat) (st : ZigzagState)
    (i : Nat) (v : Rat) (hinv : ZigzagInv values thresh st i)
    (hv : values.getD i 0 = v) :
    ZigzagInv values thresh (zigzagStep thresh st i v) (i + 1) := by
  obtain ⟨h1, h2, h3, h4, h5⟩ := hinv
  have h1s : st.candIdx < i + 1 := Nat.lt_succ_of_lt h1
  cases hr : st.rising with
  | true =>
    by_cases hup : st.candVal < v
    · rw [zigzagStep_up thresh st i v hr hup]
      refine ⟨Nat.lt_succ_self i, chain'_lt_replace_last h2 h1, hv, h4, ?_⟩
      intro l hl
      refine ⟨fun _ => ?_, fun habs => absurd (hr ▸ habs) (by simp)⟩
      have hs := (h5 l hl).1 hr
      have hcv : st.candVal ≤ v := le_of_lt hup
      linarith
    · by_cases hf : thresh ≤ st.candVal - v
      · rw [zigzagStep_flip_down thresh st i v hr hup hf]
        refine ⟨Nat.lt_succ_self i, ?_, hv, ?_, ?_⟩
        · exact chain'_append_singleton h2 fun x hx => by
            rw [List.getLast?_concat] at hx
            exact Option.some.inj hx ▸ h1
        · refine chain'_append_singleton h4 fun x hx => ?_
          have hs := (h5 x hx).1 hr
          show thresh ≤ |values.getD st.candIdx 0 - values.getD x 0|
          rw [h3]
          exact hs.trans (le_abs_self _)
        · intro l hl
          have hl' : (st.commits ++ [st.candIdx]).getLast? = some l := hl
          rw [List.getLast?_concat] at hl'
          have hlc : st.candIdx = l := Option.some.inj hl'
          refine ⟨fun habs => Bool.noConfusion habs, fun _ => ?_⟩
          show thresh ≤ values.getD l 0 - v
          rw [← hlc, h3]
          exact hf
      · rw [zigzagStep_hold_up thresh st i v hr hup hf]
        exact ⟨h1s, h2, h3, h4, h5⟩
  | false =>
    by_cases hdn : v < st.candVal
    · rw [zigzagStep_down thresh st i v hr hdn]
      refine ⟨Nat.lt_succ_self i, chain'_lt_replace_last h2 h1, hv, h4, ?_⟩
      intro l hl
      refine ⟨fun habs => absurd (hr ▸ habs) (by simp), fun _ => ?_⟩
      have hs := (h5 l hl).2 hr
      have hcv : v ≤ st.candVal := le_of_lt hdn
      linarith
    · by_cases hf : thresh ≤ v - st.candVal
      · rw [zigzagStep_flip_up thresh st i v hr hdn hf]
        refine ⟨Nat.lt_succ_self i, ?_, hv, ?_, ?_⟩
        · exact chain'_append_singleton h2 fun x hx => by
            rw [List.getLast?_concat] at hx
            exact Option.some.inj hx ▸ h1
        · refine chain'_append_singleton h4 fun x hx => ?_
          have hs := (h5 x hx).2 hr
          show thresh ≤ |values.getD st.candIdx 0 - values.getD x 0|
          rw [h3, abs_sub_comm]
          exact hs.trans (le_abs_self _)
        · intro l hl
          have hl' : (st.commits ++ [st.candIdx]).getLast? = some l := hl
          rw [List.getLast?_concat] at hl'
          have hlc : st.candIdx = l := Option.some.inj hl'
          refine ⟨fun _ => ?_, fun habs => Bool.noConfusion habs⟩
          show thresh ≤ v - values.getD l 0
          rw [← hlc, h3]
          exact hf
      · rw [zigzagStep_hold_down thresh st i v hr hdn hf]
        exact ⟨h1s, h2, h3, h4, h5⟩

theorem zigzagGo_inv (values : List Rat) (thresh : Rat) :
    ∀ (rest : List Rat) (st : ZigzagState) (i : Nat),
      values.drop i = rest → i ≤ values.length →
      ZigzagInv values thresh st i →
      ZigzagInv values thresh (zigzagGo thresh st i rest) values.length := by
  intro rest
  induction rest with
  | nil =>
    intro st i hdrop hle hinv
    have hge : values.length ≤ i := List.drop_eq_nil_iff.1 hdrop
    have hii : i = values.length := Nat.le_antisymm hle hge
    rw [zigzagGo]
    exact hii ▸ hinv
  | cons v rest ih =>
    intro st i hdrop hle hinv
    have hi : i < values.length := by
      by_contra hnot
      rw [List.drop_eq_nil_of_le (Nat.le_of_not_lt hnot)] at hdrop
      exact List.noConfusion hdrop
    have hv : values.getD i 0 = v := getD_of_drop 0 values i v rest hdrop
    have hdrop' : values.drop (i + 1) = rest := by
      have := congrArg List.tail hdrop
      simpa [List.tail_drop] using this
    rw [zigzagGo]
    exact ih (zigzagStep thresh st i v) (i + 1) hdrop' hi
      (zigzagStep_inv values thresh st i v hinv hv)

/-- C4 counterexample: on the repository's own test vectors the detector
output neither starts at index 0 (first vector: it starts at 2) nor ends at
index len − 1 (second vector: it ends at 5, not 8). -/
theorem c4_counterexample :
    (compute_critical_idxs [1, 2, 3, 0, 2, 1, 5, 3, 1] (3/2)).head? ≠ some 0 ∧
    (compute_critical_idxs [3, 2, 1, 0, 1, 2, 1, 9/10, 4/5] (3/2)).getLast? ≠
      some 8 := by
  exact ⟨by decide, by decide⟩

/-- C4 amended: for every non-empty price sequence and positive threshold the
detector output is non-empty, strictly increasing, all its indices are in
range, and every interior committed index marks a swing of magnitude at least
the threshold from the previously committed extremum; however the first
element is the first committed candidate (not necessarily index 0) and the
last element is the final candidate (not necessarily index len − 1). -/
theorem c4_detector_properties (values : List Rat) (thresh : Rat)
    (hne : values ≠ []) (_hth : 0 < thresh) :
    compute_critical_idxs values thresh ≠ [] ∧
    List.Chain' (· < ·) (compute_critical_idxs values thresh) ∧
    (∀ x ∈ compute_critical_idxs values thresh, x < values.length) ∧
    (∀ j, j + 2 < (compute_critical_idxs values thresh).length →
      thresh ≤ |values.getD ((compute_critical_idxs values thresh).getD (j + 1) 0) 0 -
        values.getD ((compute_critical_idxs values thresh).getD j 0) 0|) := by
  obtain ⟨v0, rest, rfl⟩ := List.exists_cons_of_ne_nil hne
  have hinv0 : ZigzagInv (v0 :: rest) thresh ⟨true, 0, v0, []⟩ 1 :=
    ⟨Nat.zero_lt_one, List.chain'_singleton 0, rfl, List.chain'_nil, by simp⟩
  have hfin := zigzagGo_inv (v0 :: rest) thresh rest ⟨true, 0, v0, []⟩ 1 rfl
    (Nat.succ_le_succ (Nat.zero_le _)) hinv0
  obtain ⟨hf1, hf2, hf3, hf4, hf5⟩ := hfin
  have hcc : compute_critical_idxs (v0 :: rest) thresh =
      (zigzagGo thresh ⟨true, 0, v0, []⟩ 1 rest).commits ++
        [(zigzagGo thresh ⟨true, 0, v0, []⟩ 1 rest).candIdx] := rfl
  rw [hcc]
  refine ⟨by simp, hf2, ?_, ?_⟩
  · intro x hx
    rcases List.mem_append.1 hx with hx1 | hx2
    · have hpair : List.Pairwise (· < ·)
          ((zigzagGo thresh ⟨true, 0, v0, []⟩ 1 rest).commits ++
            [(zigzagGo thresh ⟨true, 0, v0, []⟩ 1 rest).candIdx]) :=
        List.chain'_iff_pairwise.1 hf2
      have hxc := (List.pairwise_append.1 hpair).2.2 x hx1 _ (List.mem_singleton.2 rfl)
      exact hxc.trans hf1
    · rw [List.mem_singleton.1 hx2]
      exact hf1
  · intro j hj
    have hjc : j + 1 < (zigzagGo thresh ⟨true, 0, v0, []⟩ 1 rest).commits.length := by
      rw [List.length_append, List.length_singleton] at hj
      omega
    have hgj : ∀ k, k < (zigzagGo thresh ⟨true, 0, v0, []⟩ 1 rest).commits.length →
        ((zigzagGo thresh ⟨true, 0, v0, []⟩ 1 rest).commits ++
          [(zigzagGo thresh ⟨true, 0, v0, []⟩ 1 rest).candIdx]).getD k 0 =
          (zigzagGo thresh ⟨true, 0, v0, []⟩ 1 rest).commits.getD k 0 := by
      intro k hk
      rw [List.getD_eq_getElem?_getD, List.getD_eq_getElem?_getD,
        List.getElem?_append_left hk]
    rw [hgj j (Nat.lt_of_succ_lt hjc), hgj (j + 1) hjc]
    have hchain := List.chain'_iff_get.1 hf4
    have hswing := hchain j (by omega)
    have hda : ∀ k (hk : k < (zigzagGo thresh ⟨true, 0, v0, []⟩ 1 rest).commits.length),
        (zigzagGo thresh ⟨true, 0, v0, []⟩ 1 rest).commits.getD k 0 =
          (zigzagGo thresh ⟨true, 0, v0, []⟩ 1 rest).commits.get ⟨k, hk⟩ := by
      intro k hk
      rw [List.getD_eq_getElem?_getD, List.getElem?_eq_getElem hk]
      rfl
    rw [hda j (Nat.lt_of_succ_lt hjc), hda (j + 1) hjc]
    exact hswing

/-- C4 witness: the amended properties instantiated on the first test vector
with threshold 3/2, whose output is [2, 3, 6, 8]. -/
theorem c4_witness :
    List.Chain' (· < ·) (compute_critical_idxs [1, 2, 3, 0, 2, 1, 5, 3, 1] (3/2)) := by
  have h := c4_detector_properties [1, 2, 3, 0, 2, 1, 5, 3, 1] (3/2)
    (by decide) (by norm_num)
  exact h.2.1

end AutoTrader
